import Mathlib

/-!
Shallow embedding of the `bevy_proto_resource_tuples` crate.

The crate consists of two traits (`InitResources`, `InsertResources`), a
proc-macro `impl_resource_apis!` that emits one implementation of each trait
for every tuple arity 1..16, and thin adapter surfaces on the host engine's
`World`, `App` and `Commands` types.

Embedding choices:

* A resource type is identified by a numeric type id (`tid`); resource values
  are numbers.  A resource type also carries its `FromWorld` constructor,
  modelled as a function of the registry contents (the values visible in the
  world when the constructor runs).
* `World` models the host registry (the external collaborator): an association
  list from type id to resource value, the component-id registration order
  (a component id is the position of a type id in that list), and a log of
  the single-element registry operations performed, used to reason about the
  number and order of registry operations.
* `World.init_resource` and `World.insert_resource` model the collaborator's
  single-element operations per its documented contract: "if absent, construct
  a default and insert it, returning the component id" and
  "insert or overwrite".  Each call appends exactly one log entry.
* A tuple of arity `n` is represented as the list of its elements in order.
  `initResourcesList` and `insertResourcesList` embed the bodies the macro
  generates for such a tuple: the array literal
  `[world.init_resource::<P0>(), world.init_resource::<P1>(), …]`
  (evaluated left to right) and the statement sequence
  `world.insert_resource(self.0); world.insert_resource(self.1); …`.
* `impl_resource_apis` models the macro's emission loop
  (`for i in 1..=max_types`), recording which trait implementations get
  generated, one pair per arity.
* `App`, `Cmd`, `drainQueue` and the `commands_*` functions embed the three
  host surfaces (direct world, chainable app wrapper, deferred command queue).
-/

/-- A single-element registry operation, as recorded in the world's log.
`init t constructed` is one `init_resource` call on the type with id `t`
(`constructed` records whether the `FromWorld` constructor actually ran);
`insert t v` is one `insert_resource` call storing value `v` at type id `t`. -/
inductive RegOp where
  | init (tid : Nat) (constructed : Bool)
  | insert (tid : Nat) (v : Nat)
deriving DecidableEq

/-- The type id a registry operation touches. -/
def RegOp.tid : RegOp → Nat
  | .init t _ => t
  | .insert t _ => t

/-- A resource type: its type identity and its `FromWorld` constructor,
modelled as a function of the registry contents at construction time. -/
structure ResType where
  tid : Nat
  fromWorld : List (Nat × Nat) → Nat

/-- The host registry (bevy's `World`), modelled per the spec's collaborator
contract: a type-keyed store of at-most-one resource value per type id, plus
the component-id registration order and the log of registry operations. -/
structure World where
  resources : List (Nat × Nat)
  componentIds : List Nat
  log : List RegOp

/-- Lookup in a type-id-keyed association list. -/
def lookupA (l : List (Nat × Nat)) (t : Nat) : Option Nat :=
  (l.find? (fun p => p.1 == t)).map Prod.snd

/-- Insert-or-overwrite in a type-id-keyed association list. -/
def setAssoc : List (Nat × Nat) → Nat → Nat → List (Nat × Nat)
  | [], t, v => [(t, v)]
  | (a, b) :: l, t, v => if a = t then (t, v) :: l else (a, b) :: setAssoc l t v

/-- Position of a type id in the component registration list; this is the
component id handed out for that type. -/
def tidIndex (t : Nat) : List Nat → Nat
  | [] => 0
  | a :: l => if a = t then 0 else tidIndex t l + 1

/-- Register a component id for type id `t` if it has none yet, and return it:
the id of a type is its position in the registration order. -/
def World.registerComponent (w : World) (t : Nat) : World × Nat :=
  if t ∈ w.componentIds then (w, tidIndex t w.componentIds)
  else ({ w with componentIds := w.componentIds ++ [t] }, w.componentIds.length)

/-- The collaborator's single-element `init_resource`: register the component
id, then, if no resource of this type is present, run the `FromWorld`
constructor on the current registry contents and insert the result; return the
component id either way.  Exactly one log entry is appended per call. -/
def World.init_resource (w : World) (t : ResType) : World × Nat :=
  let p := w.registerComponent t.tid
  match lookupA p.1.resources t.tid with
  | some _ => ({ p.1 with log := p.1.log ++ [RegOp.init t.tid false] }, p.2)
  | none =>
      ({ p.1 with
          resources := setAssoc p.1.resources t.tid (t.fromWorld p.1.resources),
          log := p.1.log ++ [RegOp.init t.tid true] }, p.2)

/-- The collaborator's single-element `insert_resource`: insert or overwrite
the value stored for the element's type id. -/
def World.insert_resource (w : World) (t : Nat) (v : Nat) : World :=
  { w with
      resources := setAssoc w.resources t v,
      log := w.log ++ [RegOp.insert t v] }

/-- Body of the generated `InitResources::init_resources` implementation for
the tuple whose elements are `ts` (arity `ts.length`):
`[world.init_resource::<P0>(), world.init_resource::<P1>(), …]`, the array
literal evaluating left to right through the mutable world.  Returns the final
world and the component ids in tuple order. -/
def initResourcesList : List ResType → World → World × List Nat
  | [], w => (w, [])
  | t :: ts, w =>
      let p := w.init_resource t
      let q := initResourcesList ts p.1
      (q.1, p.2 :: q.2)

/-- Body of the generated `InsertResources::insert_resources` implementation
for the tuple whose elements (type id, value) are `rs` (arity `rs.length`):
`world.insert_resource(self.0); world.insert_resource(self.1); …`. -/
def insertResourcesList : List (Nat × Nat) → World → World
  | [], w => w
  | r :: rs, w => insertResourcesList rs (w.insert_resource r.1 r.2)

/-- `WorldInitResources for World`: delegates to the generated implementation
(`R::init_resources(self)`). -/
def World.init_resources (w : World) (ts : List ResType) : World × List Nat :=
  initResourcesList ts w

/-- `WorldInsertResources for World`: delegates to the generated
implementation (`resources.insert_resources(self)`). -/
def World.insert_resources (w : World) (rs : List (Nat × Nat)) : World :=
  insertResourcesList rs w

/-- The maximum generated tuple arity (`let max_types = 16;`). -/
def max_types : Nat := 16

/-- The two capability traits the macro implements per arity. -/
inductive GenTrait where
  | initResources
  | insertResources
deriving DecidableEq

/-- Model of the `impl_resource_apis!` emission loop: for each `i` in
`1..=max_types` it emits one `InitResources` impl and one `InsertResources`
impl for the tuple of arity `i`.  The list records, in emission order, the
(arity, trait) of every generated implementation. -/
def impl_resource_apis : List (Nat × GenTrait) :=
  ((List.range max_types).map (fun i => i + 1)).flatMap
    (fun i => [(i, GenTrait.initResources), (i, GenTrait.insertResources)])

/-- The application wrapper (bevy's `App`): owns a world. -/
structure App where
  world : World

/-- `AppInitResources for App`: forwards to the world and returns the app for
chaining (`self.world.init_resources::<R>(); self`). -/
def App.init_resources (a : App) (ts : List ResType) : App :=
  { a with world := (a.world.init_resources ts).1 }

/-- `AppInsertResources for App`: forwards to the world and returns the app
for chaining. -/
def App.insert_resources (a : App) (rs : List (Nat × Nat)) : App :=
  { a with world := a.world.insert_resources rs }

/-- `InitResourcesCommand`: the deferred batch-init command.  Its only field
in the source is `PhantomData<R>`, so the structure carries no data; the tuple
type itself is static information, passed separately to `write`. -/
structure InitResourcesCommand where

/-- `InsertResourcesCommand`: the deferred batch-insert command; it captures
the concrete tuple of resource values at enqueue time. -/
structure InsertResourcesCommand where
  resources : List (Nat × Nat)

/-- `Command::write` for `InitResourcesCommand`:
`world.init_resources::<R>();` — the effect depends only on the tuple type
`ts` and the world at application time, not on the command value. -/
def InitResourcesCommand.write (ts : List ResType) (_c : InitResourcesCommand)
    (w : World) : World :=
  (w.init_resources ts).1

/-- `Command::write` for `InsertResourcesCommand`:
`world.insert_resources(self.resources);`. -/
def InsertResourcesCommand.write (c : InsertResourcesCommand)
    (w : World) : World :=
  w.insert_resources c.resources

/-- A boxed command in the deferred queue: either a batch-init command for a
tuple type `ts` (payload-free, the type info is static) or a batch-insert
command holding captured values. -/
inductive Cmd where
  | initRes (ts : List ResType)
  | insertRes (c : InsertResourcesCommand)

/-- Applying a queued command to the world (`Command::write`). -/
def Cmd.write : Cmd → World → World
  | .initRes ts, w => InitResourcesCommand.write ts ⟨⟩ w
  | .insertRes c, w => c.write w

/-- `CommandsInitResources for Commands`: pushes an `InitResourcesCommand`
onto the queue; the world is not touched at enqueue time. -/
def commands_init_resources (q : List Cmd) (ts : List ResType) : List Cmd :=
  q ++ [Cmd.initRes ts]

/-- `CommandsInsertResources for Commands`: pushes an
`InsertResourcesCommand { resources }` onto the queue; the world is not
touched at enqueue time. -/
def commands_insert_resources (q : List Cmd) (rs : List (Nat × Nat)) :
    List Cmd :=
  q ++ [Cmd.insertRes ⟨rs⟩]

/-- Draining the command queue: apply each captured command to the world in
enqueue (FIFO) order. -/
def drainQueue (q : List Cmd) (w : World) : World :=
  q.foldl (fun w c => c.write w) w

/-- An empty world, used for concrete evaluations. -/
def emptyWorld : World := ⟨[], [], []⟩

/-! Helper lemmas about the association list and the component-id order. -/

theorem lookupA_nil (t : Nat) : lookupA [] t = none := rfl

theorem lookupA_cons (a b t : Nat) (l : List (Nat × Nat)) :
    lookupA ((a, b) :: l) t = if a = t then some b else lookupA l t := by
  by_cases h : a = t
  · simp [lookupA, List.find?_cons_of_pos, h]
  · simp [lookupA, List.find?_cons_of_neg, h]

theorem lookupA_setAssoc_self (l : List (Nat × Nat)) (t v : Nat) :
    lookupA (setAssoc l t v) t = some v := by
  induction l with
  | nil => simp [setAssoc, lookupA_cons]
  | cons p l ih =>
      obtain ⟨a, b⟩ := p
      by_cases h : a = t
      · simp [setAssoc, h, lookupA_cons]
      · simp [setAssoc, h, lookupA_cons, ih]

theorem lookupA_setAssoc_ne (l : List (Nat × Nat)) (t v t' : Nat)
    (h : t' ≠ t) :
    lookupA (setAssoc l t v) t' = lookupA l t' := by
  induction l with
  | nil => simp [setAssoc, lookupA_cons, lookupA_nil, Ne.symm h]
  | cons p l ih =>
      obtain ⟨a, b⟩ := p
      by_cases ha : a = t
      · subst ha
        simp [setAssoc, lookupA_cons, Ne.symm h]
      · simp [setAssoc, ha, lookupA_cons, ih]

theorem tidIndex_append_of_mem (t : Nat) (l l' : List Nat) (h : t ∈ l) :
    tidIndex t (l ++ l') = tidIndex t l := by
  induction l with
  | nil => simp at h
  | cons a l ih =>
      by_cases ha : a = t
      · simp [tidIndex, ha]
      · rcases List.mem_cons.mp h with h1 | h1
        · exact absurd h1.symm ha
        · simp [tidIndex, ha, ih h1]

theorem tidIndex_append_self (t : Nat) (l : List Nat) (h : t ∉ l) :
    tidIndex t (l ++ [t]) = l.length := by
  induction l with
  | nil => simp [tidIndex]
  | cons a l ih =>
      have ha : ¬a = t := fun e => h (e ▸ List.mem_cons_self a l)
      simp [tidIndex, ha, ih (fun hm => h (List.mem_cons_of_mem a hm))]

/-! Helper lemmas about `registerComponent`. -/

theorem registerComponent_resources (w : World) (t : Nat) :
    (w.registerComponent t).1.resources = w.resources := by
  by_cases h : t ∈ w.componentIds <;> simp [World.registerComponent, h]

theorem registerComponent_log (w : World) (t : Nat) :
    (w.registerComponent t).1.log = w.log := by
  by_cases h : t ∈ w.componentIds <;> simp [World.registerComponent, h]

theorem registerComponent_componentIds (w : World) (t : Nat) :
    ∃ l, (w.registerComponent t).1.componentIds = w.componentIds ++ l := by
  by_cases h : t ∈ w.componentIds <;> simp [World.registerComponent, h]

theorem registerComponent_mem (w : World) (t : Nat) :
    t ∈ (w.registerComponent t).1.componentIds := by
  by_cases h : t ∈ w.componentIds <;> simp [World.registerComponent, h]

theorem registerComponent_id (w : World) (t : Nat) :
    (w.registerComponent t).2 =
      tidIndex t (w.registerComponent t).1.componentIds := by
  by_cases h : t ∈ w.componentIds <;> simp [World.registerComponent, h]
  exact (tidIndex_append_self t w.componentIds h).symm

/-! Helper lemmas about the single-element `init_resource`. -/

theorem init_resource_present (w : World) (t : ResType)
    (h : (lookupA w.resources t.tid).isSome = true) :
    w.init_resource t =
      ({ (w.registerComponent t.tid).1 with
          log := w.log ++ [RegOp.init t.tid false] },
        (w.registerComponent t.tid).2) := by
  obtain ⟨v, hv⟩ := Option.isSome_iff_exists.mp h
  simp only [World.init_resource, registerComponent_resources,
    registerComponent_log, hv]

theorem init_resource_absent (w : World) (t : ResType)
    (h : lookupA w.resources t.tid = none) :
    w.init_resource t =
      ({ (w.registerComponent t.tid).1 with
          resources := setAssoc w.resources t.tid (t.fromWorld w.resources),
          log := w.log ++ [RegOp.init t.tid true] },
        (w.registerComponent t.tid).2) := by
  simp only [World.init_resource, registerComponent_resources,
    registerComponent_log, h]

theorem init_resource_componentIds (w : World) (t : ResType) :
    (w.init_resource t).1.componentIds =
      (w.registerComponent t.tid).1.componentIds := by
  cases h : lookupA w.resources t.tid with
  | none => rw [init_resource_absent w t h]
  | some v => rw [init_resource_present w t (by simp [h])]

theorem init_resource_componentIds_mono (w : World) (t : ResType) :
    ∃ l, (w.init_resource t).1.componentIds = w.componentIds ++ l := by
  rw [init_resource_componentIds]
  exact registerComponent_componentIds w t.tid

theorem init_resource_id (w : World) (t : ResType) :
    (w.init_resource t).2 =
      tidIndex t.tid (w.init_resource t).1.componentIds := by
  rw [init_resource_componentIds]
  cases h : lookupA w.resources t.tid with
  | none =>
      rw [init_resource_absent w t h]
      exact registerComponent_id w t.tid
  | some v =>
      rw [init_resource_present w t (by simp [h])]
      exact registerComponent_id w t.tid

theorem init_resource_mem_componentIds (w : World) (t : ResType) :
    t.tid ∈ (w.init_resource t).1.componentIds := by
  rw [init_resource_componentIds]
  exact registerComponent_mem w t.tid

theorem init_resource_resources_present (w : World) (t : ResType)
    (h : (lookupA w.resources t.tid).isSome = true) :
    (w.init_resource t).1.resources = w.resources := by
  rw [init_resource_present w t h]
  exact registerComponent_resources w t.tid

theorem init_resource_resources_absent (w : World) (t : ResType)
    (h : lookupA w.resources t.tid = none) :
    (w.init_resource t).1.resources =
      setAssoc w.resources t.tid (t.fromWorld w.resources) := by
  rw [init_resource_absent w t h]

theorem init_resource_lookup_ne (w : World) (t : ResType) (u : Nat)
    (h : u ≠ t.tid) :
    lookupA (w.init_resource t).1.resources u = lookupA w.resources u := by
  cases hl : lookupA w.resources t.tid with
  | none =>
      rw [init_resource_resources_absent w t hl, lookupA_setAssoc_ne _ _ _ _ h]
  | some v => rw [init_resource_resources_present w t (by simp [hl])]

theorem init_resource_lookup_some (w : World) (t : ResType) (u v : Nat)
    (h : lookupA w.resources u = some v) :
    lookupA (w.init_resource t).1.resources u = some v := by
  by_cases hu : u = t.tid
  · subst hu
    rw [init_resource_resources_present w t (by simp [h])]
    exact h
  · rw [init_resource_lookup_ne w t u hu]
    exact h

theorem init_resource_lookup_self_absent (w : World) (t : ResType)
    (h : lookupA w.resources t.tid = none) :
    lookupA (w.init_resource t).1.resources t.tid =
      some (t.fromWorld w.resources) := by
  rw [init_resource_resources_absent w t h, lookupA_setAssoc_self]

theorem init_resource_log_delta (w : World) (t : ResType) :
    ∃ b, (w.init_resource t).1.log = w.log ++ [RegOp.init t.tid b] := by
  cases h : lookupA w.resources t.tid with
  | none => exact ⟨true, by rw [init_resource_absent w t h]⟩
  | some v => exact ⟨false, by rw [init_resource_present w t (by simp [h])]⟩

theorem init_resource_stable (w : World) (t : ResType)
    (hres : (lookupA w.resources t.tid).isSome = true)
    (hcid : t.tid ∈ w.componentIds) :
    w.init_resource t =
      ({ w with log := w.log ++ [RegOp.init t.tid false] },
        tidIndex t.tid w.componentIds) := by
  rw [init_resource_present w t hres]
  simp [World.registerComponent, hcid]

/-! Helper lemmas about the generated batch-init body. -/

theorem initResourcesList_nil (w : World) : initResourcesList [] w = (w, []) :=
  rfl

theorem initResourcesList_cons_fst (t : ResType) (ts : List ResType)
    (w : World) :
    (initResourcesList (t :: ts) w).1 =
      (initResourcesList ts (w.init_resource t).1).1 :=
  rfl

theorem initResourcesList_cons_snd (t : ResType) (ts : List ResType)
    (w : World) :
    (initResourcesList (t :: ts) w).2 =
      (w.init_resource t).2 :: (initResourcesList ts (w.init_resource t).1).2 :=
  rfl

theorem initResourcesList_length (ts : List ResType) (w : World) :
    (initResourcesList ts w).2.length = ts.length := by
  induction ts generalizing w with
  | nil => rfl
  | cons t ts ih => simp [initResourcesList_cons_snd, ih]

theorem initResourcesList_componentIds_mono (ts : List ResType) (w : World) :
    ∃ l, (initResourcesList ts w).1.componentIds = w.componentIds ++ l := by
  induction ts generalizing w with
  | nil => exact ⟨[], by simp [initResourcesList_nil]⟩
  | cons t ts ih =>
      obtain ⟨l1, h1⟩ := init_resource_componentIds_mono w t
      obtain ⟨l2, h2⟩ := ih (w.init_resource t).1
      exact ⟨l1 ++ l2,
        by rw [initResourcesList_cons_fst, h2, h1, List.append_assoc]⟩

theorem initResourcesList_ids (ts : List ResType) (w : World) :
    (initResourcesList ts w).2 =
      ts.map
        (fun t => tidIndex t.tid (initResourcesList ts w).1.componentIds) := by
  induction ts generalizing w with
  | nil => rfl
  | cons t ts ih =>
      obtain ⟨l, hl⟩ :=
        initResourcesList_componentIds_mono ts (w.init_resource t).1
      rw [initResourcesList_cons_snd, initResourcesList_cons_fst, List.map_cons]
      congr 1
      · rw [init_resource_id, hl,
          tidIndex_append_of_mem _ _ _ (init_resource_mem_componentIds w t)]
      · exact ih (w.init_resource t).1

theorem initResourcesList_lookup_not_mem (ts : List ResType) (w : World)
    (u : Nat) :
    u ∉ ts.map ResType.tid →
    lookupA (initResourcesList ts w).1.resources u = lookupA w.resources u := by
  induction ts generalizing w with
  | nil => intro _; rfl
  | cons t ts ih =>
      intro h
      simp only [List.map_cons, List.mem_cons, not_or] at h
      rw [initResourcesList_cons_fst, ih _ h.2,
        init_resource_lookup_ne w t u h.1]

theorem initResourcesList_lookup_some (ts : List ResType) (w : World)
    (u v : Nat) (h : lookupA w.resources u = some v) :
    lookupA (initResourcesList ts w).1.resources u = some v := by
  induction ts generalizing w h with
  | nil => exact h
  | cons t ts ih =>
      rw [initResourcesList_cons_fst]
      exact ih _ (init_resource_lookup_some w t u v h)

theorem initResourcesList_isSome_mem (ts : List ResType) (w : World)
    (t : ResType) :
    t ∈ ts →
    (lookupA (initResourcesList ts w).1.resources t.tid).isSome = true := by
  induction ts generalizing w with
  | nil => intro h; simp at h
  | cons a ts ih =>
      intro h
      rw [initResourcesList_cons_fst]
      rcases List.mem_cons.mp h with h1 | h1
      · subst h1
        cases hl : lookupA w.resources t.tid with
        | some v =>
            have h2 := initResourcesList_lookup_some ts (w.init_resource t).1
              t.tid v (init_resource_lookup_some w t t.tid v hl)
            simp [h2]
        | none =>
            have h2 := initResourcesList_lookup_some ts (w.init_resource t).1
              t.tid (t.fromWorld w.resources)
              (init_resource_lookup_self_absent w t hl)
            simp [h2]
      · exact ih _ h1

theorem initResourcesList_mem_componentIds (ts : List ResType) (w : World)
    (t : ResType) :
    t ∈ ts → t.tid ∈ (initResourcesList ts w).1.componentIds := by
  induction ts generalizing w with
  | nil => intro h; simp at h
  | cons a ts ih =>
      intro h
      rw [initResourcesList_cons_fst]
      rcases List.mem_cons.mp h with h1 | h1
      · subst h1
        obtain ⟨l, hl⟩ :=
          initResourcesList_componentIds_mono ts (w.init_resource t).1
        rw [hl]
        exact List.mem_append_left _ (init_resource_mem_componentIds w t)
      · exact ih _ h1

theorem initResourcesList_lookup_const (ts : List ResType) (w : World)
    (t : ResType) (c : Nat) :
    (ts.map ResType.tid).Nodup → t ∈ ts → (∀ m, t.fromWorld m = c) →
    lookupA w.resources t.tid = none →
    lookupA (initResourcesList ts w).1.resources t.tid = some c := by
  induction ts generalizing w with
  | nil => intro _ h; simp at h
  | cons a ts ih =>
      intro hd hmem hc habs
      simp only [List.map_cons, List.nodup_cons] at hd
      rw [initResourcesList_cons_fst]
      rcases List.mem_cons.mp hmem with h1 | h1
      · subst h1
        have h2 := init_resource_lookup_self_absent w t habs
        rw [hc] at h2
        rw [initResourcesList_lookup_not_mem ts _ t.tid hd.1, h2]
      · have hne : a.tid ≠ t.tid := by
          intro e
          exact hd.1 (by rw [e]; exact List.mem_map_of_mem ResType.tid h1)
        exact ih _ hd.2 h1 hc
          (by rw [init_resource_lookup_ne w a t.tid (Ne.symm hne)]; exact habs)

theorem initResourcesList_log_delta (ts : List ResType) (w : World) :
    ∃ ops, (initResourcesList ts w).1.log = w.log ++ ops ∧
      ops.map RegOp.tid = ts.map ResType.tid := by
  induction ts generalizing w with
  | nil => exact ⟨[], by simp [initResourcesList_nil], rfl⟩
  | cons t ts ih =>
      obtain ⟨b, hb⟩ := init_resource_log_delta w t
      obtain ⟨ops, hops, hmap⟩ := ih (w.init_resource t).1
      refine ⟨RegOp.init t.tid b :: ops, ?_, ?_⟩
      · rw [initResourcesList_cons_fst, hops, hb]
        simp
      · simp [List.map_cons, hmap, RegOp.tid]

theorem registerComponent_componentIds_of_mem (w : World) (t : Nat)
    (h : t ∈ w.componentIds) :
    (w.registerComponent t).1.componentIds = w.componentIds := by
  simp [World.registerComponent, h]

theorem init_resource_componentIds_of_mem (w : World) (t : ResType)
    (h : t.tid ∈ w.componentIds) :
    (w.init_resource t).1.componentIds = w.componentIds := by
  rw [init_resource_componentIds]
  exact registerComponent_componentIds_of_mem w t.tid h

theorem initResourcesList_stable_resources (ts : List ResType) (w : World) :
    (∀ t ∈ ts, (lookupA w.resources t.tid).isSome = true) →
    (initResourcesList ts w).1.resources = w.resources := by
  induction ts generalizing w with
  | nil => intro _; rfl
  | cons t ts ih =>
      intro h
      have hrest : ∀ s ∈ ts,
          (lookupA (w.init_resource t).1.resources s.tid).isSome = true := by
        intro s hs
        obtain ⟨v, hv⟩ :=
          Option.isSome_iff_exists.mp (h s (List.mem_cons_of_mem t hs))
        simp [init_resource_lookup_some w t s.tid v hv]
      rw [initResourcesList_cons_fst, ih _ hrest,
        init_resource_resources_present w t (h t (List.mem_cons_self t ts))]

theorem initResourcesList_stable_componentIds (ts : List ResType) (w : World) :
    (∀ t ∈ ts, t.tid ∈ w.componentIds) →
    (initResourcesList ts w).1.componentIds = w.componentIds := by
  induction ts generalizing w with
  | nil => intro _; rfl
  | cons t ts ih =>
      intro h
      have h0 : (w.init_resource t).1.componentIds = w.componentIds :=
        init_resource_componentIds_of_mem w t (h t (List.mem_cons_self t ts))
      have hrest : ∀ s ∈ ts, s.tid ∈ (w.init_resource t).1.componentIds := by
        intro s hs
        rw [h0]
        exact h s (List.mem_cons_of_mem t hs)
      rw [initResourcesList_cons_fst, ih _ hrest, h0]

/-! Helper lemmas about the generated batch-insert body. -/

theorem insertResourcesList_nil (w : World) : insertResourcesList [] w = w :=
  rfl

theorem insertResourcesList_cons (r : Nat × Nat) (rs : List (Nat × Nat))
    (w : World) :
    insertResourcesList (r :: rs) w =
      insertResourcesList rs (w.insert_resource r.1 r.2) :=
  rfl

theorem insertResourcesList_lookup_not_mem (rs : List (Nat × Nat)) (w : World)
    (u : Nat) :
    u ∉ rs.map Prod.fst →
    lookupA (insertResourcesList rs w).resources u = lookupA w.resources u := by
  induction rs generalizing w with
  | nil => intro _; rfl
  | cons r rs ih =>
      intro h
      simp only [List.map_cons, List.mem_cons, not_or] at h
      rw [insertResourcesList_cons, ih _ h.2]
      exact lookupA_setAssoc_ne w.resources r.1 r.2 u h.1

theorem insertResourcesList_lookup_mem (rs : List (Nat × Nat)) (w : World)
    (p : Nat × Nat) :
    (rs.map Prod.fst).Nodup → p ∈ rs →
    lookupA (insertResourcesList rs w).resources p.1 = some p.2 := by
  induction rs generalizing w with
  | nil => intro _ h; simp at h
  | cons r rs ih =>
      intro hd hm
      simp only [List.map_cons, List.nodup_cons] at hd
      rw [insertResourcesList_cons]
      rcases List.mem_cons.mp hm with h1 | h1
      · subst h1
        rw [insertResourcesList_lookup_not_mem rs _ p.1 hd.1]
        exact lookupA_setAssoc_self w.resources p.1 p.2
      · exact ih _ hd.2 h1

theorem insertResourcesList_log (rs : List (Nat × Nat)) (w : World) :
    (insertResourcesList rs w).log =
      w.log ++ rs.map (fun p => RegOp.insert p.1 p.2) := by
  induction rs generalizing w with
  | nil => simp [insertResourcesList_nil]
  | cons r rs ih =>
      rw [insertResourcesList_cons, ih]
      simp [World.insert_resource]

theorem insertResourcesList_lookup (rs : List (Nat × Nat)) (w : World)
    (u : Nat) :
    lookupA (insertResourcesList rs w).resources u =
      (rs.reverse.find? (fun p => p.1 == u)).elim
        (lookupA w.resources u) (fun p => some p.2) := by
  induction rs generalizing w with
  | nil => simp [insertResourcesList_nil]
  | cons r rs ih =>
      rw [insertResourcesList_cons, ih, List.reverse_cons, List.find?_append]
      cases hf : rs.reverse.find? (fun p => p.1 == u) with
      | some p => simp [Option.or]
      | none =>
          by_cases hu : r.1 = u
          · simp [Option.or, hu, World.insert_resource, lookupA_setAssoc_self]
          · simp [Option.or, hu, World.insert_resource,
              lookupA_setAssoc_ne w.resources r.1 r.2 u (Ne.symm hu)]

/-! Helper lemmas about the generator model. -/

theorem mem_impl_resource_apis (n : Nat) (k : GenTrait) :
    (n, k) ∈ impl_resource_apis ↔ 1 ≤ n ∧ n ≤ 16 := by
  simp only [impl_resource_apis, max_types, List.mem_flatMap, List.mem_map,
    List.mem_range, List.mem_cons, List.mem_singleton, Prod.mk.injEq,
    List.not_mem_nil, or_false]
  constructor
  · rintro ⟨i, ⟨j, hj, rfl⟩, ⟨rfl, _⟩ | ⟨rfl, _⟩⟩ <;> omega
  · intro h
    refine ⟨n, ⟨n - 1, by omega, by omega⟩, ?_⟩
    cases k
    · exact Or.inl ⟨rfl, rfl⟩
    · exact Or.inr ⟨rfl, rfl⟩

theorem impl_resource_apis_nodup : impl_resource_apis.Nodup := by decide

theorem count_impl_resource_apis (n : Nat) (k : GenTrait)
    (h : 1 ≤ n ∧ n ≤ 16) :
    impl_resource_apis.count (n, k) = 1 := by
  obtain ⟨h1, h2⟩ := h
  interval_cases n <;> cases k <;> decide

/-! The claims. -/

/-- Claim C1: for every arity N in 1..16 and every tuple of N distinct
resource types, each with a default/derived constructor, batch-init performs
"if absent, construct and insert a default instance" per element against the
registry and returns an ordered sequence of exactly N component ids, handle i
being the id for element type i (the id list equals the tuple mapped to each
element type's component id).  Types already present keep their old value,
absent ones end up holding their constructed default, and types outside the
tuple are untouched. -/
theorem C1_init_resources_contract (ts : List ResType) (w : World)
    (h1 : 1 ≤ ts.length) (h2 : ts.length ≤ 16)
    (hd : (ts.map ResType.tid).Nodup) :
    ((initResourcesList ts w).2.length = ts.length) ∧
    ((initResourcesList ts w).2 =
      ts.map
        (fun t => tidIndex t.tid (initResourcesList ts w).1.componentIds)) ∧
    (∀ t ∈ ts,
      (lookupA (initResourcesList ts w).1.resources t.tid).isSome = true) ∧
    (∀ t ∈ ts, ∀ v, lookupA w.resources t.tid = some v →
      lookupA (initResourcesList ts w).1.resources t.tid = some v) ∧
    (∀ t ∈ ts, ∀ c, (∀ m, t.fromWorld m = c) →
      lookupA w.resources t.tid = none →
      lookupA (initResourcesList ts w).1.resources t.tid = some c) ∧
    (∀ u, u ∉ ts.map ResType.tid →
      lookupA (initResourcesList ts w).1.resources u =
        lookupA w.resources u) :=
  ⟨initResourcesList_length ts w, initResourcesList_ids ts w,
    fun t ht => initResourcesList_isSome_mem ts w t ht,
    fun t _ v hv => initResourcesList_lookup_some ts w t.tid v hv,
    fun t ht c hc habs =>
      initResourcesList_lookup_const ts w t c hd ht hc habs,
    fun u hu => initResourcesList_lookup_not_mem ts w u hu⟩

/-- Witness for C1 at the concrete tuple (type 0 ↦ default 10, type 1 ↦
default 20) on the empty registry. -/
theorem C1_witness :
    (initResourcesList [⟨0, fun _ => 10⟩, ⟨1, fun _ => 20⟩]
      emptyWorld).2.length = 2 ∧
    lookupA (initResourcesList [⟨0, fun _ => 10⟩, ⟨1, fun _ => 20⟩]
      emptyWorld).1.resources 1 = some 20 := by
  have h := C1_init_resources_contract
    [⟨0, fun _ => 10⟩, ⟨1, fun _ => 20⟩] emptyWorld
    (by decide) (by decide) (by decide)
  exact ⟨h.1,
    h.2.2.2.2.1 ⟨1, fun _ => 20⟩
      (List.mem_cons_of_mem _ (List.mem_cons_self _ _)) 20
      (fun m => rfl) rfl⟩

/-- Claim C2: for every arity N in 1..16 and every tuple value of N resource
values with pairwise distinct types, batch-insert performs insert-or-overwrite
per element against the registry: afterwards the registry holds exactly the
given value for each of the N element types, regardless of prior state, and
types outside the tuple are untouched.  (The function returns only the world:
there is no return value.) -/
theorem C2_insert_resources_contract (rs : List (Nat × Nat)) (w : World)
    (h1 : 1 ≤ rs.length) (h2 : rs.length ≤ 16)
    (hd : (rs.map Prod.fst).Nodup) :
    (∀ p ∈ rs,
      lookupA (insertResourcesList rs w).resources p.1 = some p.2) ∧
    (∀ u, u ∉ rs.map Prod.fst →
      lookupA (insertResourcesList rs w).resources u =
        lookupA w.resources u) :=
  ⟨fun p hp => insertResourcesList_lookup_mem rs w p hd hp,
    fun u hu => insertResourcesList_lookup_not_mem rs w u hu⟩

/-- Witness for C2 at the tuple ((0, 5), (1, 6)) over a registry that already
holds a value for type 0 (it gets overwritten). -/
theorem C2_witness :
    lookupA (insertResourcesList [(0, 5), (1, 6)]
      ⟨[(0, 99)], [], []⟩).resources 0 = some 5 ∧
    lookupA (insertResourcesList [(0, 5), (1, 6)]
      ⟨[(0, 99)], [], []⟩).resources 1 = some 6 := by
  have h := C2_insert_resources_contract [(0, 5), (1, 6)]
    ⟨[(0, 99)], [], []⟩ (by decide) (by decide) (by decide)
  exact ⟨h.1 (0, 5) (List.mem_cons_self _ _),
    h.1 (1, 6) (List.mem_cons_of_mem _ (List.mem_cons_self _ _))⟩

theorem init_resource_log_absent (w : World) (t : ResType)
    (h : lookupA w.resources t.tid = none) :
    (w.init_resource t).1.log = w.log ++ [RegOp.init t.tid true] := by
  rw [init_resource_absent w t h]

/-- Claim C3: every batch operation on an arity-N tuple performs exactly N
single-element registry operations, in left-to-right tuple order, each
touching exactly one element: the log grows by exactly one entry per element,
and entry i touches element i's type.  In particular, for a tuple (A, B) of
two absent types with distinct ids, A's constructor effect is logged before
B's, never the reverse. -/
theorem C3_batch_ops_order (ts : List ResType) (rs : List (Nat × Nat))
    (w : World) :
    (∃ ops, (initResourcesList ts w).1.log = w.log ++ ops ∧
      ops.length = ts.length ∧ ops.map RegOp.tid = ts.map ResType.tid) ∧
    ((insertResourcesList rs w).log =
        w.log ++ rs.map (fun p => RegOp.insert p.1 p.2) ∧
      (rs.map (fun p => RegOp.insert p.1 p.2)).length = rs.length ∧
      (rs.map (fun p => RegOp.insert p.1 p.2)).map RegOp.tid =
        rs.map Prod.fst) ∧
    (∀ tA tB : ResType, ∀ w2 : World, tA.tid ≠ tB.tid →
      lookupA w2.resources tA.tid = none →
      lookupA w2.resources tB.tid = none →
      (initResourcesList [tA, tB] w2).1.log =
        w2.log ++ [RegOp.init tA.tid true, RegOp.init tB.tid true]) := by
  refine ⟨?_, ⟨insertResourcesList_log rs w, by simp, ?_⟩, ?_⟩
  · obtain ⟨ops, hops, hmap⟩ := initResourcesList_log_delta ts w
    refine ⟨ops, hops, ?_, hmap⟩
    have hlen := congrArg List.length hmap
    simpa using hlen
  · rw [List.map_map]
    rfl
  · intro tA tB w2 hne hA hB
    have hB1 : lookupA (w2.init_resource tA).1.resources tB.tid = none := by
      rw [init_resource_lookup_ne w2 tA tB.tid (Ne.symm hne)]
      exact hB
    show ((w2.init_resource tA).1.init_resource tB).1.log = _
    rw [init_resource_log_absent _ tB hB1, init_resource_log_absent w2 tA hA,
      List.append_assoc]
    rfl

/-- Witness for C3's ordered-pair conclusion: initializing the absent types
0 then 1 on the empty registry logs the two constructor-running operations in
exactly that order. -/
theorem C3_witness :
    (initResourcesList [⟨0, fun _ => 1⟩, ⟨1, fun _ => 2⟩]
      emptyWorld).1.log = [RegOp.init 0 true, RegOp.init 1 true] := by
  have h := (C3_batch_ops_order [] [] emptyWorld).2.2
    ⟨0, fun _ => 1⟩ ⟨1, fun _ => 2⟩ emptyWorld (by decide) rfl rfl
  exact h

/-- Claim C4: batch-init is idempotent.  In this model the registry's
single-element init skips types whose resource is already present and returns
the stable component id, so running batch-init a second time with the same
tuple type leaves the registry contents (resource store and component-id
table) exactly as after the first call and returns the same id sequence. -/
theorem C4_init_resources_idempotent (ts : List ResType) (w : World) :
    (initResourcesList ts (initResourcesList ts w).1).1.resources =
      (initResourcesList ts w).1.resources ∧
    (initResourcesList ts (initResourcesList ts w).1).1.componentIds =
      (initResourcesList ts w).1.componentIds ∧
    (initResourcesList ts (initResourcesList ts w).1).2 =
      (initResourcesList ts w).2 := by
  have hres : ∀ t ∈ ts,
      (lookupA (initResourcesList ts w).1.resources t.tid).isSome = true :=
    fun t ht => initResourcesList_isSome_mem ts w t ht
  have hcid : ∀ t ∈ ts, t.tid ∈ (initResourcesList ts w).1.componentIds :=
    fun t ht => initResourcesList_mem_componentIds ts w t ht
  refine ⟨initResourcesList_stable_resources ts _ hres,
    initResourcesList_stable_componentIds ts _ hcid, ?_⟩
  rw [initResourcesList_ids ts (initResourcesList ts w).1,
    initResourcesList_stable_componentIds ts _ hcid,
    initResourcesList_ids ts w]

/-- Claim C5: the generator emits, for each arity 1..16 inclusive, exactly
one implementation of the batch-init capability and exactly one of the
batch-insert capability for the tuple of that arity, and emits none for
arity 0 or arity 17 and above, so such tuples have no generated
implementation at all. -/
theorem C5_generator_arities (n : Nat) :
    (1 ≤ n ∧ n ≤ 16 →
      impl_resource_apis.count (n, GenTrait.initResources) = 1 ∧
      impl_resource_apis.count (n, GenTrait.insertResources) = 1) ∧
    (n = 0 ∨ 17 ≤ n →
      (n, GenTrait.initResources) ∉ impl_resource_apis ∧
      (n, GenTrait.insertResources) ∉ impl_resource_apis) := by
  constructor
  · intro h
    exact ⟨count_impl_resource_apis n _ h, count_impl_resource_apis n _ h⟩
  · intro h
    constructor <;> intro hm <;>
      rcases (mem_impl_resource_apis n _).mp hm with ⟨hx, hy⟩ <;> omega

/-- Witness for C5 at arities 5 and 17. -/
theorem C5_witness :
    impl_resource_apis.count (5, GenTrait.initResources) = 1 ∧
    (17, GenTrait.insertResources) ∉ impl_resource_apis :=
  ⟨((C5_generator_arities 5).1 (by omega)).1,
    ((C5_generator_arities 17).2 (by omega)).2⟩

/-- Claim C6: a batch operation enqueued via the command surface does not
touch the registry at enqueue time (enqueueing only appends the captured
command to the queue); draining applies each captured command with exactly
the effect of the corresponding direct world-level batch operation at that
moment, and multiple enqueued operations are applied in enqueue (FIFO)
order. -/
theorem C6_deferred_commands (q q1 q2 : List Cmd) (ts : List ResType)
    (rs : List (Nat × Nat)) (w : World) :
    (commands_init_resources q ts = q ++ [Cmd.initRes ts]) ∧
    (commands_insert_resources q rs = q ++ [Cmd.insertRes ⟨rs⟩]) ∧
    (Cmd.write (Cmd.initRes ts) w = (World.init_resources w ts).1) ∧
    (Cmd.write (Cmd.insertRes ⟨rs⟩) w = World.insert_resources w rs) ∧
    (drainQueue (commands_init_resources q ts) w =
      (World.init_resources (drainQueue q w) ts).1) ∧
    (drainQueue (commands_insert_resources q rs) w =
      World.insert_resources (drainQueue q w) rs) ∧
    (drainQueue (q1 ++ q2) w = drainQueue q2 (drainQueue q1 w)) := by
  refine ⟨rfl, rfl, rfl, rfl, ?_, ?_, ?_⟩ <;>
    simp only [drainQueue, commands_init_resources,
      commands_insert_resources, List.foldl_append, List.foldl_cons,
      List.foldl_nil] <;>
    rfl

/-- Claim C7: the generated batch surface never serves the base case: no
implementation is emitted at arity 0, and every generated implementation is
for a tuple of arity at least 1, so a bare single resource is outside the
generated surface and must go through the registry's native single-element
operation. -/
theorem C7_no_base_case (k : GenTrait) :
    ((0, k) ∉ impl_resource_apis) ∧
    (∀ n k2, (n, k2) ∈ impl_resource_apis → 1 ≤ n) := by
  constructor
  · intro hm
    have h := (mem_impl_resource_apis 0 k).mp hm
    omega
  · intro n k2 hm
    exact ((mem_impl_resource_apis n k2).mp hm).1

/-- Witness for C7: arity 0 is absent while the emitted arity-1 batch-init
impl has arity at least 1. -/
theorem C7_witness :
    (0, GenTrait.initResources) ∉ impl_resource_apis ∧ 1 ≤ 1 :=
  ⟨(C7_no_base_case GenTrait.initResources).1,
    (C7_no_base_case GenTrait.initResources).2 1 GenTrait.initResources
      (by decide)⟩

/-- Claim C8: the batch-init entry point, given a tuple type of arity N,
returns the N component ids, and is exposed identically on the three host
surfaces: the world method delegates to the generated implementation, the
app method forwards to the world and returns the app for chaining, and the
command surface only enqueues a command whose application is exactly the
world-level operation. -/
theorem C8_init_entry_points (w : World) (a : App) (q : List Cmd)
    (ts : List ResType) :
    (World.init_resources w ts = initResourcesList ts w) ∧
    ((World.init_resources w ts).2.length = ts.length) ∧
    (App.init_resources a ts =
      { a with world := (World.init_resources a.world ts).1 }) ∧
    (commands_init_resources q ts = q ++ [Cmd.initRes ts]) ∧
    (Cmd.write (Cmd.initRes ts) w = (World.init_resources w ts).1) :=
  ⟨rfl, initResourcesList_length ts w, rfl, rfl, rfl⟩

/-- Claim C9: a deferred batch-init command captures only the tuple type and
no resource values — its payload is empty, so any two such commands are
equal, and its effect is the direct world operation, with the constructed
value for an absent type computed from the registry contents at application
time.  A deferred batch-insert command, by contrast, captures the concrete
tuple values at enqueue time and inserts exactly those values when applied. -/
theorem C9_command_payloads (ts : List ResType) (rs : List (Nat × Nat))
    (c : InitResourcesCommand) (w : World) :
    (∀ c2 : InitResourcesCommand, c = c2) ∧
    (InitResourcesCommand.write ts c w = (World.init_resources w ts).1) ∧
    (∀ t : ResType, lookupA w.resources t.tid = none →
      lookupA (InitResourcesCommand.write [t] c w).resources t.tid =
        some (t.fromWorld w.resources)) ∧
    (InsertResourcesCommand.write ⟨rs⟩ w = World.insert_resources w rs) ∧
    (∀ p ∈ rs, (rs.map Prod.fst).Nodup →
      lookupA (InsertResourcesCommand.write ⟨rs⟩ w).resources p.1 =
        some p.2) := by
  refine ⟨fun c2 => ?_, rfl, fun t habs => ?_, rfl, fun p hp hd => ?_⟩
  · cases c
    cases c2
    rfl
  · exact init_resource_lookup_self_absent w t habs
  · exact insertResourcesList_lookup_mem rs w p hd hp

/-- Witness for C9: the init command applied to the empty registry stores
the value its type constructs from that registry, and the insert command
stores exactly its captured value. -/
theorem C9_witness :
    lookupA (InitResourcesCommand.write [⟨3, fun _ => 7⟩] ⟨⟩
      emptyWorld).resources 3 = some 7 ∧
    lookupA (InsertResourcesCommand.write ⟨[(4, 9)]⟩
      emptyWorld).resources 4 = some 9 := by
  have h := C9_command_payloads [] [(4, 9)] ⟨⟩ emptyWorld
  exact ⟨h.2.2.1 ⟨3, fun _ => 7⟩ rfl,
    h.2.2.2.2 (4, 9) (List.mem_cons_self _ _) (by decide)⟩

/-- Claim C10: if the tuple passed to batch-insert contains the same resource
type at two or more positions, the registry afterwards holds for that type
the value of the rightmost (last) occurrence in the tuple: the first match in
the reversed tuple. -/
theorem C10_duplicate_types_last_wins (rs : List (Nat × Nat)) (w : World)
    (u : Nat) (h : 2 ≤ (rs.map Prod.fst).count u) :
    ∃ p, rs.reverse.find? (fun q => q.1 == u) = some p ∧ p.1 = u ∧
      lookupA (insertResourcesList rs w).resources u = some p.2 := by
  have hmem : u ∈ rs.map Prod.fst := List.count_pos_iff.mp (by omega)
  obtain ⟨p0, hp0, hpu⟩ := List.mem_map.mp hmem
  have hfs : (rs.reverse.find? (fun q => q.1 == u)).isSome := by
    rw [List.find?_isSome]
    exact ⟨p0, List.mem_reverse.mpr hp0, by simp [hpu]⟩
  obtain ⟨p, hp⟩ := Option.isSome_iff_exists.mp hfs
  refine ⟨p, hp, ?_, ?_⟩
  · have he := List.find?_some hp
    simpa using he
  · rw [insertResourcesList_lookup rs w u, hp]
    rfl

/-- Witness for C10: inserting type 1 twice (values 10 then 20, with an
unrelated type in between) leaves value 20, the rightmost occurrence. -/
theorem C10_witness :
    lookupA (insertResourcesList [(1, 10), (2, 5), (1, 20)]
      emptyWorld).resources 1 = some 20 := by
  obtain ⟨p, hp, hp1, hp2⟩ := C10_duplicate_types_last_wins
    [(1, 10), (2, 5), (1, 20)] emptyWorld 1 (by decide)
  have h0 : (([(1, 10), (2, 5), (1, 20)] : List (Nat × Nat)).reverse.find?
      (fun q => q.1 == 1)) = some (1, 20) := rfl
  rw [hp, Option.some.injEq] at h0
  rw [hp2, h0]
